import Mathlib

/-!
Shallow embedding of the deep-research agent core (node-DeepResearch) in Lean 4,
with theorems settling the frozen claims about the agent control loop
(`src/agent.ts`), the token tracker (`src/utils/token-tracker.ts`) and the
streaming server helpers (the Express app source file).

Conventions of the embedding:
* JS numbers that count tokens are modelled as `Nat`, budgets from the HTTP body
  as `Int` (a request may carry any number), and the loop's budget threshold
  `tokenBudget * 0.85` as an exact rational (`ℚ`): for realistic budgets the
  double-precision product compares identically against integer totals.
* External collaborators that live outside the staged sources (the LLM schema
  generator, the semantic query dedup tool, the evaluator, fetch/search) are
  modelled as oracle inputs to the loop, or, where a claim depends on their
  behaviour, as definitions whose doc comment starts `Modelled from the spec:`.
* JS string operations used by the staged code (`trim`, the regex character
  classes of the streaming splitter) are re-implemented here over `List Char`
  so that every definition is executable by `decide`/`rfl`.
-/

namespace DeepResearch

/-! ## Token tracking (`src/utils/token-tracker.ts`) -/

/-- Usage record of one LLM call, mirroring the `LanguageModelUsage` shape from
the `ai` package that `TokenTracker` stores: prompt, completion and total token
counts. -/
structure LanguageModelUsage where
  promptTokens : Nat
  completionTokens : Nat
  totalTokens : Nat
deriving DecidableEq, Repr

/-- The `TokenUsage` entries of `token-tracker.ts` (`{tool, usage}`). -/
structure TokenUsage where
  tool : String
  usage : LanguageModelUsage
deriving DecidableEq, Repr

/-- The `TokenTracker` class state: the private `usages` array. -/
structure TokenTracker where
  usages : List TokenUsage
deriving DecidableEq, Repr

/-- The tracker with no recorded usage (a freshly constructed `TokenTracker`). -/
def TokenTracker.empty : TokenTracker := ⟨[]⟩

/-- `trackUsage(tool, usage)` (token-tracker.ts:32-38): pushes `{tool, usage}`
onto the `usages` array. -/
def TokenTracker.trackUsage (tr : TokenTracker) (tool : String)
    (usage : LanguageModelUsage) : TokenTracker :=
  ⟨tr.usages ++ [⟨tool, usage⟩]⟩

/-- `getTotalUsage()` (token-tracker.ts:41-48): a `reduce` over `usages` that
adds the three camelCase fields into an accumulator starting at zeros. -/
def TokenTracker.getTotalUsage (tr : TokenTracker) : LanguageModelUsage :=
  tr.usages.foldl
    (fun acc u =>
      { promptTokens := acc.promptTokens + u.usage.promptTokens
        completionTokens := acc.completionTokens + u.usage.completionTokens
        totalTokens := acc.totalTokens + u.usage.totalTokens })
    { promptTokens := 0, completionTokens := 0, totalTokens := 0 }

/-- Result shape of `getTotalUsageSnakeCase` (snake_case keys, for the
OpenAI-compatible response). -/
structure UsageSnakeCase where
  prompt_tokens : Nat
  completion_tokens : Nat
  total_tokens : Nat
deriving DecidableEq, Repr

/-- `getTotalUsageSnakeCase()` (token-tracker.ts:51-58): the same `reduce` over
the same `usages`, producing snake_case keys. -/
def TokenTracker.getTotalUsageSnakeCase (tr : TokenTracker) : UsageSnakeCase :=
  tr.usages.foldl
    (fun acc u =>
      { prompt_tokens := acc.prompt_tokens + u.usage.promptTokens
        completion_tokens := acc.completion_tokens + u.usage.completionTokens
        total_tokens := acc.total_tokens + u.usage.totalTokens })
    { prompt_tokens := 0, completion_tokens := 0, total_tokens := 0 }

/-- A sequence of `trackUsage` calls applied to the fresh tracker. -/
def trackAll (calls : List (String × LanguageModelUsage)) : TokenTracker :=
  calls.foldl (fun tr c => tr.trackUsage c.1 c.2) TokenTracker.empty

theorem trackAll_usages (calls : List (String × LanguageModelUsage)) :
    (trackAll calls).usages = calls.map (fun c => ⟨c.1, c.2⟩) := by
  have gen : ∀ (cs : List (String × LanguageModelUsage)) (tr : TokenTracker),
      (cs.foldl (fun tr c => tr.trackUsage c.1 c.2) tr).usages
        = tr.usages ++ cs.map (fun c => ⟨c.1, c.2⟩) := by
    intro cs
    induction cs with
    | nil => intro tr; simp
    | cons c cs ih =>
      intro tr
      rw [List.foldl_cons, ih]
      simp [TokenTracker.trackUsage]
  simpa [trackAll, TokenTracker.empty] using gen calls TokenTracker.empty

theorem getTotalUsage_fields (tr : TokenTracker) :
    (tr.getTotalUsage).promptTokens = (tr.usages.map (fun u => u.usage.promptTokens)).sum
    ∧ (tr.getTotalUsage).completionTokens
        = (tr.usages.map (fun u => u.usage.completionTokens)).sum
    ∧ (tr.getTotalUsage).totalTokens = (tr.usages.map (fun u => u.usage.totalTokens)).sum := by
  have gen : ∀ (l : List TokenUsage) (acc : LanguageModelUsage),
      (l.foldl (fun acc u =>
        ({ promptTokens := acc.promptTokens + u.usage.promptTokens
           completionTokens := acc.completionTokens + u.usage.completionTokens
           totalTokens := acc.totalTokens + u.usage.totalTokens } : LanguageModelUsage)) acc)
        = { promptTokens := acc.promptTokens + (l.map (fun u => u.usage.promptTokens)).sum
            completionTokens :=
              acc.completionTokens + (l.map (fun u => u.usage.completionTokens)).sum
            totalTokens := acc.totalTokens + (l.map (fun u => u.usage.totalTokens)).sum } := by
    intro l
    induction l with
    | nil => intro acc; simp
    | cons u l ih =>
      intro acc
      simp [List.foldl_cons, ih, Nat.add_assoc]
  have h := gen tr.usages { promptTokens := 0, completionTokens := 0, totalTokens := 0 }
  refine ⟨?_, ?_, ?_⟩ <;> simp [TokenTracker.getTotalUsage, h]

theorem getTotalUsageSnakeCase_fields (tr : TokenTracker) :
    (tr.getTotalUsageSnakeCase).prompt_tokens
      = (tr.usages.map (fun u => u.usage.promptTokens)).sum
    ∧ (tr.getTotalUsageSnakeCase).completion_tokens
        = (tr.usages.map (fun u => u.usage.completionTokens)).sum
    ∧ (tr.getTotalUsageSnakeCase).total_tokens
        = (tr.usages.map (fun u => u.usage.totalTokens)).sum := by
  have gen : ∀ (l : List TokenUsage) (acc : UsageSnakeCase),
      (l.foldl (fun acc u =>
        ({ prompt_tokens := acc.prompt_tokens + u.usage.promptTokens
           completion_tokens := acc.completion_tokens + u.usage.completionTokens
           total_tokens := acc.total_tokens + u.usage.totalTokens } : UsageSnakeCase)) acc)
        = { prompt_tokens := acc.prompt_tokens + (l.map (fun u => u.usage.promptTokens)).sum
            completion_tokens :=
              acc.completion_tokens + (l.map (fun u => u.usage.completionTokens)).sum
            total_tokens := acc.total_tokens + (l.map (fun u => u.usage.totalTokens)).sum } := by
    intro l
    induction l with
    | nil => intro acc; simp
    | cons u l ih =>
      intro acc
      simp [List.foldl_cons, ih, Nat.add_assoc]
  have h := gen tr.usages { prompt_tokens := 0, completion_tokens := 0, total_tokens := 0 }
  refine ⟨?_, ?_, ?_⟩ <;> simp [TokenTracker.getTotalUsageSnakeCase, h]

/-- Claim C10: for every `TokenTracker` state reached by a sequence of
`trackUsage` calls, `getTotalUsageSnakeCase` returns the same three totals as
`getTotalUsage` (`prompt_tokens = promptTokens`, `completion_tokens =
completionTokens`, `total_tokens = totalTokens`), each equal to the sum of the
corresponding field over all recorded usages. -/
theorem c10_snake_case_totals_agree (calls : List (String × LanguageModelUsage)) :
    let tr := trackAll calls
    (tr.getTotalUsageSnakeCase).prompt_tokens = (tr.getTotalUsage).promptTokens
    ∧ (tr.getTotalUsageSnakeCase).completion_tokens = (tr.getTotalUsage).completionTokens
    ∧ (tr.getTotalUsageSnakeCase).total_tokens = (tr.getTotalUsage).totalTokens
    ∧ (tr.getTotalUsage).promptTokens = (tr.usages.map (fun u => u.usage.promptTokens)).sum
    ∧ (tr.getTotalUsage).completionTokens
        = (tr.usages.map (fun u => u.usage.completionTokens)).sum
    ∧ (tr.getTotalUsage).totalTokens = (tr.usages.map (fun u => u.usage.totalTokens)).sum := by
  intro tr
  obtain ⟨h1, h2, h3⟩ := getTotalUsage_fields tr
  obtain ⟨g1, g2, g3⟩ := getTotalUsageSnakeCase_fields tr
  exact ⟨by rw [g1, h1], by rw [g2, h2], by rw [g3, h3], h1, h2, h3⟩

/-! ## Budget mapping of the chat-completions endpoint (server app source) -/

/-- The `reasoning_effort` values of the request body. `Option ReasoningEffort`
covers `null` and an absent field: both fall through to the `medium` defaults
(`= 'medium'` parameter default for `undefined`, the `switch` default for
`null`). -/
inductive ReasoningEffort where
  | low
  | medium
  | high
deriving DecidableEq, Repr

/-- `getTokenBudgetAndMaxAttempts(reasoningEffort, maxCompletionTokens)`
(server app, lines 231-251): when `maxCompletionTokens !== null` it is returned
as the budget with 1 bad attempt; otherwise the effort level maps low to
(100000, 1), high to (1000000, 2), and medium/default to (500000, 1). -/
def getTokenBudgetAndMaxAttempts (reasoningEffort : Option ReasoningEffort)
    (maxCompletionTokens : Option Int) : Int × Nat :=
  match maxCompletionTokens with
  | some m => (m, 1)
  | none =>
    match reasoningEffort with
    | some .low => (100000, 1)
    | some .high => (1000000, 2)
    | some .medium => (500000, 1)
    | none => (500000, 1)

/-- The override block of `app.post('/v1/chat/completions')` (lines 457-467):
`if (body.budget_tokens) tokenBudget = body.budget_tokens;` and
`if (body.max_attempts) maxBadAttempts = body.max_attempts;` applied to the
mapped values before `getResponse` is called. The JS `if` tests truthiness, so
a present value of `0` does not override. -/
def resolveBudgetAndMaxAttempts (reasoningEffort : Option ReasoningEffort)
    (maxCompletionTokens budgetTokens : Option Int)
    (maxAttempts : Option Nat) : Int × Nat :=
  let mapped := getTokenBudgetAndMaxAttempts reasoningEffort maxCompletionTokens
  let tokenBudget :=
    match budgetTokens with
    | some v => if v = 0 then mapped.1 else v
    | none => mapped.1
  let maxBadAttempts :=
    match maxAttempts with
    | some a => if a = 0 then mapped.2 else a
    | none => mapped.2
  (tokenBudget, maxBadAttempts)

/-- Claim C7 counterexample: a request body that provides `budget_tokens = 0`
does not override the mapped budget — the endpoint's `if (body.budget_tokens)`
is a truthiness test — so the claim that "a provided budget_tokens … overrides
the mapped values" fails at this concrete input (the budget stays 500000, not
0). -/
theorem c7_zero_budget_tokens_not_applied :
    (resolveBudgetAndMaxAttempts none none (some 0) none).1 = 500000
    ∧ (resolveBudgetAndMaxAttempts none none (some 0) none).1 ≠ 0 := by
  constructor <;> decide

/-- Claim C7 (amended): `getTokenBudgetAndMaxAttempts` returns (100000, 1) for
effort low, (500000, 1) for medium or absent, (1000000, 2) for high when
`max_completion_tokens` is unset; a set `max_completion_tokens` is used as the
budget (with 1 bad attempt); and a provided non-zero `budget_tokens` or
`max_attempts` overrides the mapped values (a zero value is falsy in JS and is
ignored) before `getResponse` is called. -/
theorem c7_budget_mapping_and_overrides :
    getTokenBudgetAndMaxAttempts (some .low) none = (100000, 1)
    ∧ getTokenBudgetAndMaxAttempts (some .medium) none = (500000, 1)
    ∧ getTokenBudgetAndMaxAttempts none none = (500000, 1)
    ∧ getTokenBudgetAndMaxAttempts (some .high) none = (1000000, 2)
    ∧ (∀ (re : Option ReasoningEffort) (m : Int),
        getTokenBudgetAndMaxAttempts re (some m) = (m, 1))
    ∧ (∀ (re : Option ReasoningEffort) (mct ma : Option Int) (a : Option Nat) (v : Int),
        v ≠ 0 → (ma = some v) →
          (resolveBudgetAndMaxAttempts re mct ma a).1 = v)
    ∧ (∀ (re : Option ReasoningEffort) (mct bt : Option Int) (a : Nat),
        a ≠ 0 → (resolveBudgetAndMaxAttempts re mct bt (some a)).2 = a)
    ∧ (∀ (re : Option ReasoningEffort) (mct : Option Int) (a : Option Nat),
        (resolveBudgetAndMaxAttempts re mct none a).1
          = (getTokenBudgetAndMaxAttempts re mct).1)
    ∧ (∀ (re : Option ReasoningEffort) (mct bt : Option Int),
        (resolveBudgetAndMaxAttempts re mct bt none).2
          = (getTokenBudgetAndMaxAttempts re mct).2) := by
  refine ⟨rfl, rfl, rfl, rfl, ?_, ?_, ?_, ?_, ?_⟩
  · intro re m; rfl
  · intro re mct ma a v hv hma
    subst hma
    simp [resolveBudgetAndMaxAttempts, hv]
  · intro re mct bt a ha
    simp [resolveBudgetAndMaxAttempts, ha]
  · intro re mct a; rfl
  · intro re mct bt
    cases bt with
    | none => rfl
    | some v =>
      by_cases hv : v = 0 <;> simp [resolveBudgetAndMaxAttempts, hv]

/-- Witness for C7 (amended): the override clauses applied at concrete inputs:
`budget_tokens = 7` overrides the medium budget and `max_attempts = 5`
overrides the medium attempt count. -/
theorem c7_budget_mapping_witness :
    (resolveBudgetAndMaxAttempts none none (some 7) none).1 = 7
    ∧ (resolveBudgetAndMaxAttempts none none none (some 5)).2 = 5 :=
  ⟨c7_budget_mapping_and_overrides.2.2.2.2.2.1 none none (some 7) none 7
      (by decide) rfl,
    c7_budget_mapping_and_overrides.2.2.2.2.2.2.1 none none none 5 (by decide)⟩

/-! ## Query dedup and caps of the search dispatch (agent.ts:877-905) -/

/-- Modelled from the spec: `dedupQueries(newQueries, existing)` lives in
`src/tools/jina-dedup.ts`, which is not among the staged sources. §4.1.2 of the
spec describes it as "Deduplicate against `all_keywords`": the result keeps, in
order, the new queries that are neither in the given history nor repeated among
themselves (`unique_queries`). -/
def dedupQueries (newQueries existing : List String) : List String :=
  match newQueries with
  | [] => []
  | q :: rest =>
    if q ∈ existing then dedupQueries rest existing
    else q :: dedupQueries rest (q :: existing)

/-- Modelled from the spec: `chooseK` lives in `src/utils/text-tools.ts`, which
is not among the staged sources. The spec describes its use as "cap to
`MAX_QUERIES_PER_STEP`" (resp. `MAX_REFLECT_PER_STEP`): keep at most `k`
entries. -/
def chooseK (l : List String) (k : Nat) : List String :=
  l.take k

/-- First search pass of the search dispatch (agent.ts:879):
`chooseK((await dedupQueries(thisStep.searchRequests, [], …)).unique_queries,
MAX_QUERIES_PER_STEP)` — note the dedup history passed is the empty array, not
`allKeywords`. `k` stands for `MAX_QUERIES_PER_STEP` (defined in
`src/utils/schemas.ts`, not among the staged sources). -/
def firstPassQueries (searchRequests : List String) (k : Nat) : List String :=
  chooseK (dedupQueries searchRequests []) k

/-- Second search pass of the search dispatch (agent.ts:900): the rewritten
queries are deduplicated against the accumulated `allKeywords` and capped:
`chooseK((await dedupQueries(qOnly, allKeywords, …)).unique_queries,
MAX_QUERIES_PER_STEP)`. -/
def secondPassQueries (rewritten allKeywords : List String) (k : Nat) : List String :=
  chooseK (dedupQueries rewritten allKeywords) k

theorem dedupQueries_not_mem_existing (newQueries : List String) :
    ∀ (existing : List String) (q : String),
      q ∈ dedupQueries newQueries existing → q ∉ existing := by
  induction newQueries with
  | nil => intro existing q h; simp [dedupQueries] at h
  | cons p rest ih =>
    intro existing q h
    by_cases hp : p ∈ existing
    · simp only [dedupQueries, if_pos hp] at h
      exact ih existing q h
    · simp only [dedupQueries, if_neg hp] at h
      rcases List.mem_cons.mp h with h1 | h2
      · exact h1 ▸ hp
      · have := ih (p :: existing) q h2
        exact fun hq => this (List.mem_cons_of_mem _ hq)

theorem dedupQueries_nodup (newQueries : List String) :
    ∀ existing : List String, (dedupQueries newQueries existing).Nodup := by
  induction newQueries with
  | nil => intro existing; simp [dedupQueries]
  | cons p rest ih =>
    intro existing
    by_cases hp : p ∈ existing
    · simpa [dedupQueries, hp] using ih existing
    · simp only [dedupQueries, if_neg hp]
      refine List.nodup_cons.mpr ⟨?_, ih (p :: existing)⟩
      intro hmem
      exact dedupQueries_not_mem_existing rest (p :: existing) p hmem (List.mem_cons_self _ _)

/-- Claim C5 counterexample: the claim — every first-pass query has been
deduplicated against the accumulated `all_keywords` history (so none of the
executed queries is in that history) — is false: with history `["a"]` and LLM
queries `["a"]`, the first pass still executes `"a"`, because agent.ts:879
passes `[]` (not `allKeywords`) as the dedup history. -/
theorem c5_first_pass_ignores_history :
    ¬ (∀ (searchRequests allKeywords : List String) (k : Nat),
        ∀ q ∈ firstPassQueries searchRequests k, q ∉ allKeywords) := by
  intro h
  exact h ["a"] ["a"] 3 "a" (by decide) (by decide)

/-- Claim C5 (amended): on every search dispatch the LLM's query strings are
deduplicated among themselves (the dedup call is passed an empty history, not
`all_keywords`) and capped to `MAX_QUERIES_PER_STEP` before the first search
pass executes; it is the rewritten second-pass queries that are deduplicated
against the accumulated `all_keywords` history and capped before the second
pass. -/
theorem c5_query_dedup_and_cap (searchRequests rewritten allKeywords : List String)
    (k : Nat) :
    (firstPassQueries searchRequests k).Nodup
    ∧ (firstPassQueries searchRequests k).length ≤ k
    ∧ (∀ q ∈ firstPassQueries searchRequests k, q ∈ searchRequests)
    ∧ (secondPassQueries rewritten allKeywords k).Nodup
    ∧ (secondPassQueries rewritten allKeywords k).length ≤ k
    ∧ (∀ q ∈ secondPassQueries rewritten allKeywords k, q ∉ allKeywords) := by
  have mem_of_dedup : ∀ (newQs : List String), ∀ (ex : List String) (q : String),
      q ∈ dedupQueries newQs ex → q ∈ newQs := by
    intro newQs
    induction newQs with
    | nil => intro ex q h; simp [dedupQueries] at h
    | cons p rest ih =>
      intro ex q h
      by_cases hp : p ∈ ex
      · simp only [dedupQueries, if_pos hp] at h
        exact List.mem_cons_of_mem _ (ih ex q h)
      · simp only [dedupQueries, if_neg hp] at h
        rcases List.mem_cons.mp h with h1 | h2
        · exact h1 ▸ List.mem_cons_self _ _
        · exact List.mem_cons_of_mem _ (ih (p :: ex) q h2)
  refine ⟨?_, ?_, ?_, ?_, ?_, ?_⟩
  · exact (dedupQueries_nodup searchRequests []).sublist (List.take_sublist _ _)
  · exact List.length_take_le k (dedupQueries searchRequests [])
  · intro q hq
    exact mem_of_dedup searchRequests [] q (List.take_subset _ _ hq)
  · exact (dedupQueries_nodup rewritten allKeywords).sublist (List.take_sublist _ _)
  · exact List.length_take_le k (dedupQueries rewritten allKeywords)
  · intro q hq
    exact dedupQueries_not_mem_existing rewritten allKeywords q (List.take_subset _ _ hq)

/-- Witness for C5 (amended) at concrete inputs: first pass of `["a", "a", "b"]`
capped to 2 keeps `["a", "b"]`, and the second pass of `["a", "b"]` against
history `["a"]` keeps `["b"]`, which avoids the history. -/
theorem c5_query_dedup_witness :
    firstPassQueries ["a", "a", "b"] 2 = ["a", "b"]
    ∧ (firstPassQueries ["a", "a", "b"] 2).Nodup
    ∧ secondPassQueries ["a", "b"] ["a"] 2 = ["b"]
    ∧ ("b" ∈ secondPassQueries ["a", "b"] ["a"] 2 → "b" ∉ (["a"] : List String)) := by
  refine ⟨by decide, (c5_query_dedup_and_cap ["a", "a", "b"] ["a", "b"] ["a"] 2).1,
    by decide, ?_⟩
  intro hb
  exact (c5_query_dedup_and_cap ["a", "a", "b"] ["a", "b"] ["a"] 2).2.2.2.2.2 "b" hb

/-! ## Per-step URL-driven action gating (agent.ts:614-628) -/

/-- Lines 626-628 of `getResponse`: after the weighted URL list for the step is
computed, `allowRead = allowRead && (weightedURLs.length > 0)` and
`allowSearch = allowSearch && (weightedURLs.length < 200)`. The pair returned
is `(allowRead, allowSearch)` after these updates. -/
def updateAllowFlagsForURLs (allowRead allowSearch : Bool)
    (weightedURLs : List String) : Bool × Bool :=
  (allowRead && decide (0 < weightedURLs.length),
   allowSearch && decide (weightedURLs.length < 200))

/-- Claim C6 counterexample: with 200 weighted URLs (and search not previously
disabled), the code disables search — `200 < 200` is false — although the claim
says search is disabled only when the list's length exceeds 200 and "at exactly
200 search stays enabled". -/
theorem c6_search_disabled_at_exactly_200 :
    (updateAllowFlagsForURLs true true (List.replicate 200 "u")).2 = false
    ∧ ¬ (200 < (List.replicate 200 "u").length) := by
  constructor
  · have h : (List.replicate 200 "u").length = 200 := List.length_replicate _ _
    simp only [updateAllowFlagsForURLs, h]
    decide
  · rw [List.length_replicate]
    decide

/-- Claim C6 (amended): on every iteration, after filtering and
diversity-capping the ranked URL list, if the list is empty the visit action is
disabled for that step, and — provided search was not already disabled by the
previous dispatch — the search action is disabled for that step if and only if
the list's length is at least 200 (so search is already disabled at exactly
200). -/
theorem c6_url_count_action_gating (allowRead allowSearch : Bool)
    (weightedURLs : List String) :
    (weightedURLs = [] → (updateAllowFlagsForURLs allowRead allowSearch weightedURLs).1 = false)
    ∧ (allowSearch = true →
        (((updateAllowFlagsForURLs allowRead allowSearch weightedURLs).2 = false)
          ↔ 200 ≤ weightedURLs.length)) := by
  constructor
  · intro h
    simp [updateAllowFlagsForURLs, h]
  · intro hs
    subst hs
    simp only [updateAllowFlagsForURLs, Bool.true_and]
    constructor
    · intro h
      by_contra hlt
      simp [Nat.lt_of_not_le hlt] at h
    · intro h
      simp [Nat.not_lt_of_le h]

/-- Witness for C6 (amended) at concrete inputs: the empty list disables visit,
199 URLs keep search enabled, and 200 URLs disable it. -/
theorem c6_url_count_gating_witness :
    (updateAllowFlagsForURLs true true []).1 = false
    ∧ (updateAllowFlagsForURLs true true (List.replicate 199 "u")).2 ≠ false
    ∧ (updateAllowFlagsForURLs true true (List.replicate 200 "u")).2 = false := by
  refine ⟨(c6_url_count_action_gating true true []).1 rfl, ?_, ?_⟩
  · intro h
    have := ((c6_url_count_action_gating true true (List.replicate 199 "u")).2 rfl).mp h
    rw [List.length_replicate] at this
    exact absurd this (by decide)
  · exact ((c6_url_count_action_gating true true (List.replicate 200 "u")).2 rfl).mpr
      (by rw [List.length_replicate])

/-! ## JS string primitives used by the staged code

The streaming splitter and the agent loop test characters with JS regexes
(`/\s/`, CJK ranges, URL delimiters, punctuation) and trim strings with
`String.prototype.trim`. These are re-implemented here over `Char`/`List Char`.
-/

/-- Membership in the JS `\s` class (ECMAScript WhiteSpace ∪ LineTerminator):
tab, LF, VT, FF, CR, space, NBSP, Ogham space, the U+2000-200A range, LS, PS,
NNBSP, MMSP, ideographic space and BOM. -/
def jsWhitespace (c : Char) : Bool :=
  let n := c.toNat
  (9 ≤ n && n ≤ 13) || n = 32 || n = 0xa0 || n = 0x1680
    || (0x2000 ≤ n && n ≤ 0x200a) || n = 0x2028 || n = 0x2029
    || n = 0x202f || n = 0x205f || n = 0x3000 || n = 0xfeff

/-- JS `String.prototype.trim` on a character list: drop `\s` characters from
both ends. -/
def jsTrimList (l : List Char) : List Char :=
  ((l.dropWhile jsWhitespace).reverse.dropWhile jsWhitespace).reverse

/-- JS `String.prototype.trim`. -/
def jsTrim (s : String) : String :=
  ⟨jsTrimList s.toList⟩

/-- The CJK test of the splitter: `/[一-鿿぀-ヿ가-힯]/`
(Han, kana, hangul). -/
def cjkChar (c : Char) : Bool :=
  let n := c.toNat
  (0x4e00 ≤ n && n ≤ 0x9fff) || (0x3040 ≤ n && n ≤ 0x30ff)
    || (0xac00 ≤ n && n ≤ 0xd7af)

/-- The URL-terminator test of the splitter: `/[\s\])}"']/`. -/
def urlEndChar (c : Char) : Bool :=
  jsWhitespace c || c = ']' || c = ')' || c = Char.ofNat 125
    || c = Char.ofNat 34 || c = Char.ofNat 39

/-- The punctuation-break test of the splitter: `/[.!?,;:]/`. -/
def punctChar (c : Char) : Bool :=
  c = '.' || c = '!' || c = '?' || c = ',' || c = ';' || c = ':'

/-- Decides whether `pat` occurs at the front of `l`. -/
def listStartsWith : List Char → List Char → Bool
  | [], _ => true
  | _ :: _, [] => false
  | p :: ps, c :: cs => (p = c) && listStartsWith ps cs

/-- Decides whether `pat` occurs anywhere in `l` (an unanchored regex search
for a literal). -/
def listContainsSeq (pat : List Char) : List Char → Bool
  | [] => listStartsWith pat []
  | c :: cs => listStartsWith pat (c :: cs) || listContainsSeq pat cs

/-- The URL-start detection of the splitter at a character `'h'`:
`text.slice(i, i + 8).match(/https?:\/\//)` — an unanchored search for
`http://` or `https://` inside the next 8 characters (`l` is the text from
position `i` inclusive). -/
def urlStartTest (l : List Char) : Bool :=
  listContainsSeq ("http://".toList) (l.take 8)
    || listContainsSeq ("https://".toList) (l.take 8)

/-! ## `splitTextIntoChunks` (server app, lines 77-136) -/

/-- `pushCurrentChunk` of `splitTextIntoChunks`: the current chunk is appended
to the output only when it is non-empty. -/
def emitChunk (cur : List Char) : List (List Char) :=
  if cur.isEmpty then [] else [cur]

/-- The character loop of `splitTextIntoChunks`, processing the remaining text
with the pending `currentChunk` and the `inURL` flag. Mirrors lines 90-134 of
the server app:
* a character `'h'` matching `https?:\/\/` in its 8-character window pushes the
  current chunk and enters URL mode (and is then consumed by the URL branch);
* in URL mode characters accumulate until the next character matches
  `/[\s\])}"']/` or the text ends, when the URL chunk is pushed;
* a CJK character or a `\s` character is pushed as its own chunk;
* any other character accumulates, and the chunk is pushed early when the NEXT
  character matches `/[.!?,;:]/`;
* the final `pushCurrentChunk()` after the loop. -/
def splitChunksAux (cur : List Char) (inURL : Bool) : List Char → List (List Char)
  | [] => emitChunk cur
  | c :: rest =>
    let newURL := (c = 'h') && urlStartTest (c :: rest)
    if newURL || inURL then
      let cur2 := (if newURL then [] else cur) ++ [c]
      let pushedBefore := if newURL then emitChunk cur else []
      let urlEnds :=
        match rest with
        | [] => true
        | n :: _ => urlEndChar n
      if urlEnds then pushedBefore ++ emitChunk cur2 ++ splitChunksAux [] false rest
      else pushedBefore ++ splitChunksAux cur2 true rest
    else if cjkChar c then
      emitChunk cur ++ [c] :: splitChunksAux [] false rest
    else if jsWhitespace c then
      emitChunk cur ++ [c] :: splitChunksAux [] false rest
    else
      let cur2 := cur ++ [c]
      let punctNext :=
        match rest with
        | [] => false
        | n :: _ => punctChar n
      if punctNext then emitChunk cur2 ++ splitChunksAux [] false rest
      else splitChunksAux cur2 false rest

/-- `splitTextIntoChunks(text)` (server app, lines 77-136): run the character
loop from an empty current chunk outside URL mode, then
`chunks.filter(chunk => chunk !== '')`. -/
def splitTextIntoChunks (text : String) : List String :=
  (((splitChunksAux [] false text.toList).filter (fun l => !l.isEmpty)).map
    (fun l => String.mk l))

theorem emitChunk_flatten (cur : List Char) : (emitChunk cur).flatten = cur := by
  by_cases h : cur.isEmpty
  · simp [emitChunk, h, List.isEmpty_iff.mp h]
  · simp [emitChunk, h]

theorem splitChunksAux_flatten (text : List Char) :
    ∀ (cur : List Char) (inURL : Bool),
      (splitChunksAux cur inURL text).flatten = cur ++ text := by
  induction text with
  | nil =>
    intro cur inURL
    simp [splitChunksAux, emitChunk_flatten]
  | cons c rest ih =>
    intro cur inURL
    by_cases hu : ((c = 'h') && urlStartTest (c :: rest)) || inURL
    · simp only [splitChunksAux, hu, if_true]
      by_cases hn : (c = 'h') && urlStartTest (c :: rest)
      · simp only [hn, if_true]
        cases rest with
        | nil => simp [emitChunk_flatten, ih]
        | cons n rs =>
          by_cases he : urlEndChar n
          · simp [he, emitChunk_flatten, ih]
          · simp [he, emitChunk_flatten, ih]
      · simp only [hn, if_false]
        cases rest with
        | nil => simp [emitChunk_flatten, ih]
        | cons n rs =>
          by_cases he : urlEndChar n
          · simp [he, emitChunk_flatten, ih]
          · simp [he, emitChunk_flatten, ih]
    · simp only [splitChunksAux, hu, if_false]
      by_cases hc : cjkChar c
      · simp [hc, emitChunk_flatten, ih]
      · simp only [hc, if_false]
        by_cases hw : jsWhitespace c
        · simp [hw, emitChunk_flatten, ih]
        · simp only [hw, if_false]
          cases rest with
          | nil => simp [emitChunk_flatten, ih]
          | cons n rs =>
            by_cases hp : punctChar n
            · simp [hp, emitChunk_flatten, ih]
            · simp [hp, emitChunk_flatten, ih]

theorem filter_nonempty_flatten (l : List (List Char)) :
    (l.filter (fun x => !x.isEmpty)).flatten = l.flatten := by
  induction l with
  | nil => rfl
  | cons x xs ih =>
    by_cases h : x.isEmpty
    · simp [List.filter_cons, h, List.isEmpty_iff.mp h, ih]
    · simp [List.filter_cons, h, ih]

theorem join_map_mk (ls : List (List Char)) :
    String.join (ls.map (fun l => String.mk l)) = ⟨ls.flatten⟩ := by
  have gen : ∀ (ls : List (List Char)) (acc : List Char),
      (ls.map (fun l => String.mk l)).foldl (fun r s => r ++ s) ⟨acc⟩
        = ⟨acc ++ ls.flatten⟩ := by
    intro ls
    induction ls with
    | nil => intro acc; simp
    | cons x xs ih =>
      intro acc
      have h1 : (String.mk acc) ++ (String.mk x) = String.mk (acc ++ x) := rfl
      simp only [List.map_cons, List.foldl_cons, h1, ih, List.flatten_cons,
        List.append_assoc]
  have h0 : String.join (ls.map (fun l => String.mk l))
      = (ls.map (fun l => String.mk l)).foldl (fun r s => r ++ s) ⟨[]⟩ := rfl
  rw [h0, gen]
  rfl

/-- Claim C9: for every string `s`, `splitTextIntoChunks s` returns a list of
chunks whose concatenation in order equals `s`, and no returned chunk is the
empty string. -/
theorem c9_split_chunks_concat_and_nonempty (s : String) :
    String.join (splitTextIntoChunks s) = s
    ∧ ∀ c ∈ splitTextIntoChunks s, c ≠ "" := by
  constructor
  · rw [splitTextIntoChunks, join_map_mk, filter_nonempty_flatten,
      splitChunksAux_flatten s.toList [] false]
    rfl
  · intro c hc
    rw [splitTextIntoChunks] at hc
    obtain ⟨l, hl, rfl⟩ := List.mem_map.mp hc
    have hne := List.of_mem_filter hl
    intro hstr
    have : l = [] := congrArg String.data hstr
    rw [this] at hne
    simp at hne

/-- Witness for C9 at a concrete input mixing words, a URL, punctuation and a
CJK character: the chunks concatenate back to the text and the URL chunk is a
non-empty member. -/
theorem c9_split_chunks_witness :
    String.join (splitTextIntoChunks "see https://a.b now") = "see https://a.b now"
    ∧ "https://a.b" ∈ splitTextIntoChunks "see https://a.b now"
    ∧ "https://a.b" ≠ "" :=
  ⟨(c9_split_chunks_concat_and_nonempty "see https://a.b now").1,
    by decide,
    (c9_split_chunks_concat_and_nonempty "see https://a.b now").2 _ (by decide)⟩

/-! ## `streamTextNaturally` (server app, lines 39-74) -/

/-- The yield sequence of the `streamTextNaturally` generator. `all` is the
full chunk list `chunks = splitTextIntoChunks(text)`; the loop walks it with
position `i`. `offAt = some j` means the shared `streamingState
.currentlyStreaming` flag reads `false` from iteration `j` on (the client
disconnected between yields); `none` means it stays `true`. When the flag is
observed `false` the generator runs
`yield chunks.slice(chunks.indexOf(chunk)).join(''); return;` — note that
`indexOf` finds the FIRST occurrence of the current chunk's value. Delays
(`calculateDelay`, burst mode) only pace the yields and are not modelled. -/
def streamYieldsGo (all : List String) (offAt : Option Nat) :
    Nat → List String → List String
  | _, [] => []
  | i, c :: rest =>
    let flagOff : Bool :=
      match offAt with
      | some j => decide (j ≤ i)
      | none => false
    if flagOff then
      [String.join (all.drop (all.indexOf c))]
    else
      c :: streamYieldsGo all offAt (i + 1) rest

/-- All strings yielded by `streamTextNaturally(text, streamingState)` over its
whole run, when the streaming flag turns off at iteration `offAt` (if ever). -/
def streamTextNaturallyYields (text : String) (offAt : Option Nat) : List String :=
  let chunks := splitTextIntoChunks text
  streamYieldsGo chunks offAt 0 chunks

/-- Claim C8 is a code bug; this theorem evaluates the embedded code at the
failing input. For `text = "a a"` the chunks are `["a", " ", "a"]`; when the
flag turns off at the third iteration, `chunks.indexOf("a")` is `0` (first
occurrence by value, not the loop position), so the generator re-emits the
already-yielded prefix: the concatenated output is `"a a a"`, not `"a a"`. -/
theorem c8_flush_duplicates_on_repeated_chunk :
    splitTextIntoChunks "a a" = ["a", " ", "a"]
    ∧ streamTextNaturallyYields "a a" (some 2) = ["a", " ", "a a"]
    ∧ String.join (streamTextNaturallyYields "a a" (some 2)) = "a a a"
    ∧ String.join (streamTextNaturallyYields "a a" (some 2)) ≠ "a a" := by
  refine ⟨by decide, by decide, by decide, by decide⟩

/-! ## The main loop of `getResponse` (agent.ts:496-1075)

The loop is embedded as a fuel-indexed transition system over the state the
claims are about: the token tracker, `gaps`, `allQuestions`, `totalStep`.
Everything decided by external collaborators — which action the LLM picks, the
search/visit/fetch results, the evaluator verdicts and the criterion list
seeded by `evaluateQuestion` — is supplied by an oracle `StepEvent` per
iteration. Dispatch branches that never touch this state (diary narratives,
knowledge pushes, URL processing) are not tracked. -/

/-- Question extraction of `getResponse` (agent.ts:511-526): the incoming
`question` is trimmed; system messages are dropped; when messages remain, the
question becomes the last message's content — trimmed when the content is a
string, but taken verbatim (`.pop()?.text || ''`, with NO trim) from the last
`text` part when the content is an array. -/
structure ContentPart where
  typ : String
  text : String
deriving DecidableEq, Repr

/-- Message content is either a plain string or an array of typed parts. -/
inductive MsgContent where
  | str (s : String)
  | parts (l : List ContentPart)
deriving DecidableEq, Repr

/-- One conversation message (`CoreMessage`): role and content. -/
structure Msg where
  role : String
  content : MsgContent
deriving DecidableEq, Repr

/-- The value the `question` local holds when the main loop starts
(agent.ts:511-526). -/
def extractQuestion (question : Option String) (messages : Option (List Msg)) :
    String :=
  let trimmed := question.map jsTrim
  let msgs := (messages.getD []).filter (fun m => m.role != "system")
  match msgs.getLast? with
  | some m =>
    match m.content with
    | .str s => jsTrim s
    | .parts l =>
      match (l.filter (fun p => p.typ == "text")).getLast? with
      | some p => p.text
      | none => ""
  | none => trimmed.getD ""

/-- `const regularBudget = tokenBudget * 0.85` (agent.ts:558). -/
def regularBudget (tokenBudget : ℚ) : ℚ :=
  tokenBudget * 0.85

/-- The loop guard `token_tracker total < tokenBudget * 0.85` decided in exact
integer arithmetic (`t < b * 17/20  ↔  t * 20 < b * 17`); see
`underRegularBudget_iff` for the equivalence with `regularBudget`. -/
def underRegularBudget (totalTokens tokenBudget : Nat) : Bool :=
  decide (totalTokens * 20 < tokenBudget * 17)

theorem underRegularBudget_iff (t b : Nat) :
    underRegularBudget t b = true ↔ (t : ℚ) < regularBudget (b : ℚ) := by
  rw [underRegularBudget, decide_eq_true_iff, regularBudget]
  rw [show (0.85 : ℚ) = 17 / 20 by norm_num]
  constructor
  · intro h
    have h2 : ((t : ℚ)) * 20 < (b : ℚ) * 17 := by exact_mod_cast h
    nlinarith
  · intro h
    have h2 : (t : ℚ) * 20 < (b : ℚ) * 17 := by nlinarith
    exact_mod_cast h2

/-- The action chosen by the LLM for one iteration, as far as the tracked state
is concerned. For `answer`, `normRefs` is the reference URL list AFTER
`updateReferences` normalization; for `reflect`, `raw` is the list of proposed
sub-questions before dedup. Search, visit and coding dispatches do not touch
the tracked state. -/
inductive StepChoice where
  | answer (ans : String) (normRefs : List String)
  | reflect (raw : List String)
  | searchStep
  | visitStep
  | codingStep
deriving DecidableEq, Repr

/-- The oracle data for one iteration: the chosen action, the state of the
external evaluator machinery for the current question — `metricsLen` (length of
`evaluationMetrics[currentQuestion]` at line 711, used only when the current
question trims to the original), `evalPass` (the `evaluateAnswer` verdict when
it is called), `metricsRemain` (whether criteria remain after the failure
decrement at lines 750-755) — and the token usages recorded during the
iteration. -/
structure StepEvent where
  choice : StepChoice
  metricsLen : Nat
  evalPass : Bool
  metricsRemain : Bool
  consumed : List TokenUsage
deriving DecidableEq, Repr

/-- The tracked slice of `getResponse`'s loop state. -/
structure LoopState where
  tokenTracker : TokenTracker
  gaps : List String
  allQuestions : List String
  totalStep : Nat
deriving DecidableEq, Repr

/-- The configuration `getResponse` was called with (the fields the tracked
claims depend on; `maxReflectPerStep` stands for `MAX_REFLECT_PER_STEP` from
`src/utils/schemas.ts`, not among the staged sources). -/
structure LoopConfig where
  question : String
  noDirectAnswer : Bool
  tokenBudget : Nat
  maxReflectPerStep : Nat
deriving DecidableEq, Repr

/-- Initial loop state (agent.ts:538-556): `gaps = [question]`,
`allQuestions = [question]`, `totalStep = 0`, and the token tracker from
`existingContext` or fresh. -/
def initLoopState (question : String) (tr : TokenTracker) : LoopState :=
  { tokenTracker := tr, gaps := [question], allQuestions := [question], totalStep := 0 }

/-- Observable outcome of the `answer` dispatch (agent.ts:673-841), covering
the flags the claims are about:
* the trivial branch (line 677): `totalStep == 1`, no references after
  normalization, and `noDirectAnswer` false — accept as final and break, with
  neither the reference fetch (line 688) nor `evaluateAnswer` (line 715) run;
* otherwise references are fetched when present and the evaluator is called
  when `evaluationMetrics[currentQuestion]` is non-empty (the default verdict
  is `pass = true`);
* original question (`currentQuestion.trim() === question`, line 725): pass
  accepts and breaks; fail either breaks to beast mode when no criteria remain
  (line 763) or continues with `allowAnswer` disabled — `gaps` untouched;
* sub-question (line 815): on pass, push knowledge and
  `gaps.splice(gaps.indexOf(currentQuestion), 1)`. -/
structure AnswerDispatchResult where
  isFinal : Bool
  trivialQuestion : Bool
  breakLoop : Bool
  evalCalled : Bool
  refsFetched : Bool
  gapsAfter : List String
deriving DecidableEq, Repr

/-- The `answer` dispatch of the main loop (agent.ts:673-841); see
`AnswerDispatchResult`. -/
def answerDispatch (question currentQuestion : String) (normRefs : List String)
    (noDirectAnswer : Bool) (totalStep metricsLen : Nat)
    (evalPass metricsRemain : Bool) (gaps : List String) : AnswerDispatchResult :=
  if totalStep = 1 ∧ normRefs = [] ∧ noDirectAnswer = false then
    { isFinal := true, trivialQuestion := true, breakLoop := true,
      evalCalled := false, refsFetched := false, gapsAfter := gaps }
  else
    let refsFetched := !normRefs.isEmpty
    let evalCalled := decide (0 < metricsLen)
    let pass := if evalCalled then evalPass else true
    if jsTrim currentQuestion = question then
      if pass then
        { isFinal := true, trivialQuestion := false, breakLoop := true,
          evalCalled := evalCalled, refsFetched := refsFetched, gapsAfter := gaps }
      else if metricsRemain then
        { isFinal := false, trivialQuestion := false, breakLoop := false,
          evalCalled := evalCalled, refsFetched := refsFetched, gapsAfter := gaps }
      else
        { isFinal := false, trivialQuestion := false, breakLoop := true,
          evalCalled := evalCalled, refsFetched := refsFetched, gapsAfter := gaps }
    else
      if pass then
        { isFinal := false, trivialQuestion := false, breakLoop := false,
          evalCalled := evalCalled, refsFetched := refsFetched,
          gapsAfter := gaps.eraseIdx (gaps.indexOf currentQuestion) }
      else
        { isFinal := false, trivialQuestion := false, breakLoop := false,
          evalCalled := evalCalled, refsFetched := refsFetched, gapsAfter := gaps }

/-- Outcome of one loop iteration: continue, break out of the loop (`isFinal`
as set on `thisStep`), or the JS crash when `gaps` is empty —
`gaps[totalStep % 0]` indexes with `NaN` and yields `undefined`, and the
subsequent `currentQuestion.trim()` throws. -/
inductive IterOutcome where
  | next (s : LoopState)
  | finished (s : LoopState) (isFinal : Bool)
  | stuck (s : LoopState)
deriving DecidableEq, Repr

/-- The state carried by an `IterOutcome`. -/
def IterOutcome.state : IterOutcome → LoopState
  | .next s => s
  | .finished s _ => s
  | .stuck s => s

/-- One iteration of the main loop body (agent.ts:578-1075): increment
`totalStep`, pick `currentQuestion = gaps[totalStep % gaps.length]`
(agent.ts:587), then dispatch the chosen action. The evaluator metrics for a
question that does not trim to the original are reset to `[]` (agent.ts:603-605),
so such an answer is always treated as passing. Token usages recorded during
the iteration are appended to the tracker. -/
def runIter (cfg : LoopConfig) (s : LoopState) (ev : StepEvent) : IterOutcome :=
  let ts := s.totalStep + 1
  let base : LoopState :=
    { s with totalStep := ts, tokenTracker := ⟨s.tokenTracker.usages ++ ev.consumed⟩ }
  match s.gaps[ts % s.gaps.length]? with
  | none => .stuck base
  | some currentQuestion =>
    match ev.choice with
    | .answer ans normRefs =>
      if ans = "" then .next base
      else
        let metricsLen :=
          if jsTrim currentQuestion = cfg.question then ev.metricsLen else 0
        let r := answerDispatch cfg.question currentQuestion normRefs
          cfg.noDirectAnswer ts metricsLen ev.evalPass ev.metricsRemain s.gaps
        if r.breakLoop then .finished { base with gaps := r.gapsAfter } r.isFinal
        else .next { base with gaps := r.gapsAfter }
    | .reflect raw =>
      let newQs := chooseK (dedupQueries raw s.allQuestions) cfg.maxReflectPerStep
      .next { base with gaps := s.gaps ++ newQs,
                        allQuestions := s.allQuestions ++ newQs }
    | .searchStep => .next base
    | .visitStep => .next base
    | .codingStep => .next base

/-- What is observed about one iteration that began: the tracker total at the
guard check, the incremented `totalStep`, the `gaps` list at question
selection, and the selected question. -/
structure IterLog where
  guardTotal : Nat
  totalStep : Nat
  gapsAtPick : List String
  currentQuestion : Option String
deriving DecidableEq, Repr

/-- The log entry for an iteration beginning at state `s`. -/
def mkIterLog (s : LoopState) : IterLog :=
  { guardTotal := (s.tokenTracker.getTotalUsage).totalTokens
    totalStep := s.totalStep + 1
    gapsAtPick := s.gaps
    currentQuestion := s.gaps[(s.totalStep + 1) % s.gaps.length]? }

/-- Why a run of the main loop ended. -/
inductive RunExit where
  | budgetExhausted
  | fuelOut
  | broke (isFinal : Bool)
  | stuck
deriving DecidableEq, Repr

/-- A run of the main loop: the per-iteration log, the state at exit, and the
exit reason. -/
structure RunResult where
  log : List IterLog
  state : LoopState
  exit : RunExit
deriving DecidableEq, Repr

/-- The main loop (agent.ts:578-1075) with `fuel` bounding the number of
iterations: while the tracker total is under `tokenBudget * 0.85`
(agent.ts:558, 578), run one iteration. -/
def runLoop (cfg : LoopConfig) (events : Nat → StepEvent) :
    Nat → LoopState → RunResult
  | 0, s => ⟨[], s, .fuelOut⟩
  | fuel + 1, s =>
    if underRegularBudget (s.tokenTracker.getTotalUsage).totalTokens cfg.tokenBudget then
      match runIter cfg s (events s.totalStep) with
      | .next s2 =>
        ⟨mkIterLog s :: (runLoop cfg events fuel s2).log,
          (runLoop cfg events fuel s2).state,
          (runLoop cfg events fuel s2).exit⟩
      | .finished s2 fin => ⟨[mkIterLog s], s2, .broke fin⟩
      | .stuck s2 => ⟨[mkIterLog s], s2, .stuck⟩
    else ⟨[], s, .budgetExhausted⟩

/-- Claim C2: for every iteration of the main loop, at the moment the loop
guard is checked the token tracker's total usage is strictly less than
`0.85 * tokenBudget` (the guard `total < regularBudget`, agent.ts:578); an
iteration never begins once usage reaches `0.85 * tokenBudget`. -/
theorem c2_loop_guard_under_budget (cfg : LoopConfig) (events : Nat → StepEvent)
    (fuel : Nat) (s : LoopState) :
    ∀ e ∈ (runLoop cfg events fuel s).log,
      (e.guardTotal : ℚ) < regularBudget (cfg.tokenBudget : ℚ) := by
  induction fuel generalizing s with
  | zero =>
    intro e he
    simp [runLoop] at he
  | succ n ih =>
    intro e he
    rw [runLoop] at he
    by_cases hg :
        underRegularBudget (s.tokenTracker.getTotalUsage).totalTokens cfg.tokenBudget = true
    · rw [if_pos hg] at he
      have hbound : ((mkIterLog s).guardTotal : ℚ) < regularBudget (cfg.tokenBudget : ℚ) :=
        (underRegularBudget_iff _ _).mp hg
      cases hiter : runIter cfg s (events s.totalStep) with
      | next s2 =>
        rw [hiter] at he
        dsimp only at he
        rcases List.mem_cons.mp he with rfl | hmem
        · exact hbound
        · exact ih s2 e hmem
      | finished s2 fin =>
        rw [hiter] at he
        dsimp only at he
        rcases List.mem_singleton.mp he with rfl
        exact hbound
      | stuck s2 =>
        rw [hiter] at he
        dsimp only at he
        rcases List.mem_singleton.mp he with rfl
        exact hbound
    · rw [if_neg hg] at he
      simp at he

/-- Witness for C2 at concrete inputs: in a run with budget 100 where every
step consumes 30 tokens, both iterations that begin do so with the tracker
total under `0.85 * 100`. -/
theorem c2_loop_guard_witness :
    (mkIterLog (initLoopState "q" TokenTracker.empty))
        ∈ (runLoop ⟨"q", false, 100, 2⟩
            (fun _ => ⟨.searchStep, 0, true, true, [⟨"agent", ⟨10, 20, 30⟩⟩]⟩) 2
            (initLoopState "q" TokenTracker.empty)).log
    ∧ ((mkIterLog (initLoopState "q" TokenTracker.empty)).guardTotal : ℚ)
        < regularBudget ((100 : Nat) : ℚ) :=
  ⟨by decide,
    c2_loop_guard_under_budget ⟨"q", false, 100, 2⟩
      (fun _ => ⟨.searchStep, 0, true, true, [⟨"agent", ⟨10, 20, 30⟩⟩]⟩) 2
      (initLoopState "q" TokenTracker.empty) _ (by decide)⟩

/-- Claim C3: with `noDirectAnswer = false`, an answer chosen at
`totalStep == 1` whose references are empty after normalization is accepted
immediately as final: the dispatch reports `isFinal`, marks the question
trivial, breaks the loop, and runs neither the reference fetch nor the
evaluator; the run's log then has exactly one iteration (so no search or visit
ever ran) and the loop exits finally. The dispatch requires a non-empty answer
string (`thisStep.action === 'answer' && thisStep.answer`, agent.ts:673). -/
theorem c3_trivial_direct_answer
    (question currentQuestion : String) (metricsLen : Nat)
    (evalPass metricsRemain : Bool) (gaps : List String)
    (cfg : LoopConfig) (events : Nat → StepEvent) (tr : TokenTracker) (fuel : Nat)
    (ans : String) (hans : ans ≠ "")
    (hnd : cfg.noDirectAnswer = false)
    (hguard : underRegularBudget (tr.getTotalUsage).totalTokens cfg.tokenBudget = true)
    (hev : (events 0).choice = .answer ans []) :
    answerDispatch question currentQuestion [] false 1 metricsLen evalPass
        metricsRemain gaps
      = { isFinal := true, trivialQuestion := true, breakLoop := true,
          evalCalled := false, refsFetched := false, gapsAfter := gaps }
    ∧ (runLoop cfg events (fuel + 1) (initLoopState cfg.question tr)).exit
        = .broke true
    ∧ (runLoop cfg events (fuel + 1) (initLoopState cfg.question tr)).log.length
        = 1 := by
  have hdisp : ∀ (q cq : String) (ml : Nat) (ep mr : Bool) (gs : List String),
      answerDispatch q cq [] false 1 ml ep mr gs
        = { isFinal := true, trivialQuestion := true, breakLoop := true,
            evalCalled := false, refsFetched := false, gapsAfter := gs } := by
    intro q cq ml ep mr gs
    simp [answerDispatch]
  have hiter : runIter cfg (initLoopState cfg.question tr) (events 0)
      = .finished
          { tokenTracker := ⟨tr.usages ++ (events 0).consumed⟩,
            gaps := [cfg.question], allQuestions := [cfg.question], totalStep := 1 }
          true := by
    rw [runIter]
    simp only [initLoopState]
    rw [hev]
    simp only [Nat.mod_self, List.getElem?_cons_zero, List.length_cons,
      List.length_nil]
    rw [if_neg hans]
    rw [hnd, hdisp]
    simp
  have hguard' : underRegularBudget
      ((initLoopState cfg.question tr).tokenTracker.getTotalUsage).totalTokens
      cfg.tokenBudget = true := hguard
  have hiter' : runIter cfg (initLoopState cfg.question tr)
      (events (initLoopState cfg.question tr).totalStep)
      = .finished
          { tokenTracker := ⟨tr.usages ++ (events 0).consumed⟩,
            gaps := [cfg.question], allQuestions := [cfg.question], totalStep := 1 }
          true := hiter
  refine ⟨hdisp question currentQuestion metricsLen evalPass metricsRemain gaps, ?_, ?_⟩
  · rw [runLoop, if_pos hguard', hiter']
  · rw [runLoop, if_pos hguard', hiter']
    rfl

/-- Witness for C3 at concrete inputs: a non-empty answer with no references at
step 1 under `noDirectAnswer = false` is accepted as final with no evaluation
and the run ends after its single iteration. -/
theorem c3_trivial_direct_answer_witness :
    answerDispatch "hi" "hi" [] false 1 3 true true ["hi"]
      = { isFinal := true, trivialQuestion := true, breakLoop := true,
          evalCalled := false, refsFetched := false, gapsAfter := ["hi"] }
    ∧ (runLoop ⟨"hi", false, 100, 2⟩
        (fun _ => ⟨.answer "yo" [], 3, true, true, []⟩) 1
        (initLoopState "hi" TokenTracker.empty)).exit = .broke true
    ∧ (runLoop ⟨"hi", false, 100, 2⟩
        (fun _ => ⟨.answer "yo" [], 3, true, true, []⟩) 1
        (initLoopState "hi" TokenTracker.empty)).log.length = 1 :=
  c3_trivial_direct_answer "hi" "hi" 3 true true ["hi"]
    ⟨"hi", false, 100, 2⟩ (fun _ => ⟨.answer "yo" [], 3, true, true, []⟩)
    TokenTracker.empty 0 "yo" (by decide) rfl (by decide) rfl

theorem answerDispatch_gapsAfter (question currentQuestion : String)
    (normRefs : List String) (noDirectAnswer : Bool) (totalStep metricsLen : Nat)
    (evalPass metricsRemain : Bool) (gaps : List String) :
    (answerDispatch question currentQuestion normRefs noDirectAnswer totalStep
        metricsLen evalPass metricsRemain gaps).gapsAfter = gaps
    ∨ (jsTrim currentQuestion ≠ question
        ∧ (answerDispatch question currentQuestion normRefs noDirectAnswer totalStep
            metricsLen evalPass metricsRemain gaps).gapsAfter
          = gaps.eraseIdx (gaps.indexOf currentQuestion)) := by
  simp only [answerDispatch]
  repeat' split
  all_goals first
    | exact Or.inl rfl
    | exact Or.inr ⟨by assumption, rfl⟩

theorem head_eraseIdx_indexOf (t : List String) (q c : String) (hne : q ≠ c) :
    ((q :: t).eraseIdx ((q :: t).indexOf c)).head? = some q := by
  rw [List.indexOf_cons_ne _ hne]
  rfl

theorem state_ite_break (c : Bool) (s2 : LoopState) (fin : Bool) :
    (if c = true then IterOutcome.finished s2 fin else IterOutcome.next s2).state
      = s2 := by
  cases c <;> rfl

theorem runIter_preserves_head (cfg : LoopConfig)
    (hq : jsTrim cfg.question = cfg.question) (s : LoopState) (ev : StepEvent)
    (h : s.gaps.head? = some cfg.question) :
    (runIter cfg s ev).state.gaps.head? = some cfg.question := by
  obtain ⟨t, hgaps⟩ : ∃ t, s.gaps = cfg.question :: t := by
    cases hg : s.gaps with
    | nil => rw [hg] at h; simp at h
    | cons a t =>
      rw [hg] at h
      simp only [List.head?_cons, Option.some.injEq] at h
      exact ⟨t, by rw [h]⟩
  rw [runIter]
  cases hcq : s.gaps[(s.totalStep + 1) % s.gaps.length]? with
  | none => exact h
  | some cq =>
    cases hch : ev.choice with
    | answer ans normRefs =>
      by_cases hans : ans = ""
      · simp only [hans, if_pos rfl]
        exact h
      · simp only [if_neg hans, state_ite_break]
        rcases answerDispatch_gapsAfter cfg.question cq normRefs cfg.noDirectAnswer
            (s.totalStep + 1)
            (if jsTrim cq = cfg.question then ev.metricsLen else 0)
            ev.evalPass ev.metricsRemain s.gaps with hsame | ⟨htrim, herase⟩
        · rw [hsame] at *
          exact h
        · have hne : cfg.question ≠ cq := by
            intro hcontra
            exact htrim (hcontra ▸ hq)
          rw [herase] at *
          rw [hgaps]
          exact head_eraseIdx_indexOf t cfg.question cq hne
    | reflect raw =>
      rw [hgaps]
      rfl
    | searchStep => exact h
    | visitStep => exact h
    | codingStep => exact h

theorem runLoop_preserves_head (cfg : LoopConfig) (events : Nat → StepEvent)
    (hq : jsTrim cfg.question = cfg.question) (fuel : Nat) :
    ∀ s : LoopState, s.gaps.head? = some cfg.question →
      (∀ e ∈ (runLoop cfg events fuel s).log, e.gapsAtPick.head? = some cfg.question)
      ∧ (runLoop cfg events fuel s).state.gaps.head? = some cfg.question := by
  induction fuel with
  | zero =>
    intro s h
    refine ⟨?_, by simpa [runLoop] using h⟩
    intro e he
    simp [runLoop] at he
  | succ n ih =>
    intro s h
    rw [runLoop]
    by_cases hg :
        underRegularBudget (s.tokenTracker.getTotalUsage).totalTokens cfg.tokenBudget = true
    · rw [if_pos hg]
      have hpres := runIter_preserves_head cfg hq s (events s.totalStep) h
      cases hiter : runIter cfg s (events s.totalStep) with
      | next s2 =>
        rw [hiter] at hpres
        obtain ⟨ih1, ih2⟩ := ih s2 hpres
        refine ⟨?_, ih2⟩
        intro e he
        rcases List.mem_cons.mp he with rfl | hmem
        · exact h
        · exact ih1 e hmem
      | finished s2 fin =>
        rw [hiter] at hpres
        refine ⟨?_, hpres⟩
        intro e he
        rcases List.mem_singleton.mp he with rfl
        exact h
      | stuck s2 =>
        rw [hiter] at hpres
        refine ⟨?_, hpres⟩
        intro e he
        rcases List.mem_singleton.mp he with rfl
        exact h
    · rw [if_neg hg]
      refine ⟨?_, h⟩
      intro e he
      simp at he

theorem runLoop_log_round_robin (cfg : LoopConfig) (events : Nat → StepEvent)
    (fuel : Nat) :
    ∀ s : LoopState, ∀ e ∈ (runLoop cfg events fuel s).log,
      e.currentQuestion = e.gapsAtPick[e.totalStep % e.gapsAtPick.length]? := by
  induction fuel with
  | zero =>
    intro s e he
    simp [runLoop] at he
  | succ n ih =>
    intro s e he
    rw [runLoop] at he
    by_cases hg :
        underRegularBudget (s.tokenTracker.getTotalUsage).totalTokens cfg.tokenBudget = true
    · rw [if_pos hg] at he
      cases hiter : runIter cfg s (events s.totalStep) with
      | next s2 =>
        rw [hiter] at he
        dsimp only at he
        rcases List.mem_cons.mp he with rfl | hmem
        · rfl
        · exact ih s2 e hmem
      | finished s2 fin =>
        rw [hiter] at he
        dsimp only at he
        rcases List.mem_singleton.mp he with rfl
        rfl
      | stuck s2 =>
        rw [hiter] at he
        dsimp only at he
        rcases List.mem_singleton.mp he with rfl
        rfl
    · rw [if_neg hg] at he
      simp at he

/-- Claim C4 (amended): provided the extracted original question carries no
surrounding JS whitespace (`question.trim() === question`, which holds whenever
the question is taken from a string message or the `question` argument, both of
which the code trims), every iteration of the main loop processes
`gaps[totalStep % gaps.length]` (agent.ts:587), and the original question
remains at index 0 of `gaps` for the whole run. When the last user message is
a parts array, the extracted question is NOT trimmed (agent.ts:522) and the
invariant can fail — see the counterexample. -/
theorem c4_round_robin_and_origin_at_head (cfg : LoopConfig)
    (events : Nat → StepEvent) (fuel : Nat) (tr : TokenTracker)
    (hq : jsTrim cfg.question = cfg.question) :
    (∀ e ∈ (runLoop cfg events fuel (initLoopState cfg.question tr)).log,
        e.currentQuestion = e.gapsAtPick[e.totalStep % e.gapsAtPick.length]?
        ∧ e.gapsAtPick.head? = some cfg.question)
    ∧ (runLoop cfg events fuel (initLoopState cfg.question tr)).state.gaps.head?
        = some cfg.question := by
  have h0 : (initLoopState cfg.question tr).gaps.head? = some cfg.question := rfl
  obtain ⟨h1, h2⟩ := runLoop_preserves_head cfg events hq fuel _ h0
  exact ⟨fun e he => ⟨runLoop_log_round_robin cfg events fuel _ e he, h1 e he⟩, h2⟩

/-- Witness for C4 (amended) at concrete inputs: a three-iteration run — a
reflect that appends a sub-question `"s"`, a search step, then an answer at
`totalStep = 3` which round-robins to `gaps[3 % 2] = "s"` and removes it —
keeps the original question at the head of `gaps`. -/
theorem c4_round_robin_witness :
    (runLoop ⟨"q", true, 100, 2⟩
        (fun i => if i = 0 then ⟨.reflect ["s"], 0, true, true, []⟩
          else if i = 1 then ⟨.searchStep, 0, true, true, []⟩
          else ⟨.answer "hi" ["r"], 0, true, true, []⟩) 3
        (initLoopState "q" TokenTracker.empty)).state.gaps.head? = some "q" ∧
    (runLoop ⟨"q", true, 100, 2⟩
        (fun i => if i = 0 then ⟨.reflect ["s"], 0, true, true, []⟩
          else if i = 1 then ⟨.searchStep, 0, true, true, []⟩
          else ⟨.answer "hi" ["r"], 0, true, true, []⟩) 3
        (initLoopState "q" TokenTracker.empty)).state.gaps = ["q"] :=
  ⟨(c4_round_robin_and_origin_at_head ⟨"q", true, 100, 2⟩
      (fun i => if i = 0 then ⟨.reflect ["s"], 0, true, true, []⟩
        else if i = 1 then ⟨.searchStep, 0, true, true, []⟩
        else ⟨.answer "hi" ["r"], 0, true, true, []⟩) 3 TokenTracker.empty
      (by decide)).2,
    by decide⟩

/-- Claim C4 counterexample: when the last user message is a parts array, the
extracted question keeps its surrounding whitespace (agent.ts:522 takes
`.pop()?.text` verbatim). At step 1 the loop picks `gaps[1 % 1] = " q"`;
because `" q".trim() !== " q"`, the answer is routed to the SUB-question branch
(agent.ts:725 compares `currentQuestion.trim() === question`), whose metrics
are empty so the default verdict passes, and
`gaps.splice(gaps.indexOf(" q"), 1)` removes the original question from index 0
— `gaps` is left empty. The references are non-empty so the trivial branch is
skipped. -/
theorem c4_untrimmed_question_removed_from_gaps :
    extractQuestion none (some [⟨"user", .parts [⟨"text", " q"⟩]⟩]) = " q"
    ∧ (runLoop ⟨" q", false, 100, 2⟩
        (fun _ => ⟨.answer "hi" ["r"], 0, true, true, []⟩) 1
        (initLoopState " q" TokenTracker.empty)).state.gaps = []
    ∧ (runLoop ⟨" q", false, 100, 2⟩
        (fun _ => ⟨.answer "hi" ["r"], 0, true, true, []⟩) 1
        (initLoopState " q" TokenTracker.empty)).state.gaps.head? ≠ some " q" := by
  refine ⟨by decide, by decide, by decide⟩

end DeepResearch
